import Mathlib

/-!
Verification of the `enum-from-functions` procedural-macro transformation.

The repository contains two near-duplicate revisions of the same
transformation:

* `src/lib.rs` — an early, self-contained revision: it scans the `impl`
  block itself, generates field-less variants, and builds a `map` function
  whose extra parameters are the first function's own parameters.  Its
  diagnostics are constructed with `syn::Error::new(..).into_compile_error()`
  but the resulting token stream is discarded (never returned), so nothing
  is ever reported.
* `src/extract.rs` + `src/generate.rs` — the later, most-complete revision:
  `Functions::try_from` extracts signatures, forwarding-call expressions and
  aggregated `async`/`const`/`unsafe` flags, and `Variants::convert_single`
  derives field-carrying variants.  The emitter (the `lib.rs` of this
  revision) is not part of the repository; where a claim depends on it, the
  corresponding definition is modelled from the spec and marked as such.

Machine-level conventions of the embedding: Rust types are modelled by their
printed source text (`Ty := String`), token spans by the ordinal of the
function member the token belongs to, and a `proc_macro_error` abort or an
`unreachable` panic by dedicated fatal outcomes.
-/

namespace EnumFromFunctions

/-- Rust types are modelled by their printed source text; `syn` compares
them structurally, which on the printed form is string equality. -/
abbrev Ty := String

/-- Binding pattern of a non-receiver argument (`syn::Pat` as used by this
crate): a plain identifier, the wildcard `_`, or anything else
(destructuring patterns), which the crate treats as unreachable. -/
inductive Pat where
  | ident (name : String)
  | wild
  | other (descr : String)
deriving DecidableEq

/-- One entry of `Signature::inputs` (`syn::FnArg`): the receiver `self`
or a `pattern : type` pair. -/
inductive FnArg where
  | receiver
  | typed (pat : Pat) (ty : Ty)
deriving DecidableEq

/-- Return type (`syn::ReturnType`): either the default (no arrow) or an
explicit type. -/
inductive ReturnType where
  | default
  | ty (t : Ty)
deriving DecidableEq

/-- The parts of `syn::Signature` this crate inspects.  Generics, ABI and
variadics are never touched by the source and are omitted. -/
structure Signature where
  constness : Bool
  asyncness : Bool
  unsafety : Bool
  ident : String
  inputs : List FnArg
  output : ReturnType
deriving DecidableEq

/-- One item of the `impl` block: a function (with its signature; bodies
are never inspected) or any other kind of item, which the transformation
passes through untouched. -/
inductive ImplItem where
  | fn (sig : Signature)
  | other (descr : String)
deriving DecidableEq

/-- The parsed `impl` block (`syn::ItemImpl`), restricted to the member
list, which is all the extractor looks at. -/
structure ItemImpl where
  items : List ImplItem
deriving DecidableEq

/-- Signatures of the function members, in member order (the extractor's
`if let ImplItem::Fn(function) = item` filter). -/
def fnSigs (items : List ImplItem) : List Signature :=
  items.filterMap (fun it =>
    match it with
    | .fn s => some s
    | .other _ => none)

/-- Token span, modelled as "which token of which function member":
the return type, the `async` token or the `const` token of the `k`-th
function member of the block. -/
inductive Span where
  | output (fnIdx : Nat)
  | asyncTok (fnIdx : Nat)
  | constTok (fnIdx : Nat)
deriving DecidableEq

/-- One diagnostic of `extract.rs`: a return-type mismatch (the message
cites the other, conflicting return type) or the async/const
mutual-exclusion error, at a given span. -/
inductive Diag where
  | retMismatch (sp : Span) (cited : ReturnType)
  | asyncConstMix (sp : Span)
deriving DecidableEq

/-- Forwarding-call expression built by `Functions::try_from`:
`Self::fname(self?, args...)`, optionally wrapped in `.await`. -/
inductive Expr where
  | call (fname : String) (receiver : Bool) (args : List String)
  | await (e : Expr)
deriving DecidableEq

/-- Output structure of the extractor (`Functions` in `extract.rs`).
The accumulated flags are `Option Nat` because the source stores the
cloned token, whose span is the ordinal of the (last) function member
that carried it. -/
structure Functions where
  signatures : List Signature
  return_type : ReturnType
  calls : List Expr
  asyncness : Option Nat
  constness : Option Nat
  unsafety : Option Nat
deriving DecidableEq

/-- Embedding of `<FnArg as WithoutTypes>::without_types` (`generate.rs`):
the argument identifiers, skipping receivers and wildcard bindings; any
other pattern hits `unreachable` in the source, i.e. the macro dies,
modelled as `none`. -/
def without_types : List FnArg → Option (List String)
  | [] => some []
  | .typed (.ident x) _ :: rest => (without_types rest).map (fun xs => x :: xs)
  | .typed .wild _ :: rest => without_types rest
  | .typed (.other _) _ :: _ => none
  | .receiver :: rest => without_types rest

/-- Whether the first input is the receiver, as tested by
`if let Some(FnArg::Receiver(r)) = &function.sig.inputs.first()`. -/
def recvFlag (sig : Signature) : Bool :=
  match sig.inputs.head? with
  | some .receiver => true
  | _ => false

/-- The forwarding call built for one function in `extract.rs` lines
99-114: `Self::name(recv, args)` wrapped in `.await` when the function is
asynchronous; `none` when `without_types` dies on an unsupported
pattern. -/
def callOf (sig : Signature) : Option Expr :=
  (without_types sig.inputs).map (fun args =>
    let c := Expr.call sig.ident (recvFlag sig) args
    if sig.asyncness then Expr.await c else c)

/-- Loop state of `Functions::try_from`: the fields of the partially built
`Functions` value, the first-seen return type with the ordinal of the
function that set it, the emitted diagnostics, and the ordinal of the next
function member (used as the span source). -/
structure ExtractState where
  signatures : List Signature
  calls : List Expr
  asyncness : Option Nat
  constness : Option Nat
  unsafety : Option Nat
  firstRet : Option (Nat × ReturnType)
  diags : List Diag
  fnCount : Nat
deriving DecidableEq

/-- Initial loop state (`Functions::new()` plus the local
`return_type = None`). -/
def ExtractState.init : ExtractState :=
  { signatures := [], calls := [], asyncness := none, constness := none,
    unsafety := none, firstRet := none, diags := [], fnCount := 0 }

/-- Outcome of the extraction loop: normal completion, a
`proc_macro_error` abort (fatal; carries the diagnostics emitted before it
and the aborting diagnostic), or a panic from `unreachable` (fatal). -/
inductive LoopOut where
  | ok (st : ExtractState)
  | abort (emitted : List Diag) (d : Diag)
  | panic (emitted : List Diag)

/-- Diagnostics of the return-type check of `extract.rs` lines 52-70: when
a first-seen return type exists and differs from the current function's,
two `emit_error` calls fire — one at the unifying type's span citing the
offending type, one at the offending type's span citing the unifying
type. -/
def mismatchDiags (st : ExtractState) (sig : Signature) : List Diag :=
  match st.firstRet with
  | some (i0, rt) =>
    if rt ≠ sig.output then
      [Diag.retMismatch (Span.output i0) sig.output,
       Diag.retMismatch (Span.output st.fnCount) rt]
    else []
  | none => []

/-- The `match (asyncness, constness, r.asyncness, r.constness)` of
`extract.rs` lines 74-83: the two arms that produce
`Some((asyncness, constness))`, as (async-token span, const-token span)
ordinals; every other flag combination falls through to `None`. -/
def mixOf (st : ExtractState) (sig : Signature) : Option (Nat × Nat) :=
  match sig.asyncness, sig.constness, st.asyncness, st.constness with
  | true, false, none, some j => some (st.fnCount, j)
  | false, true, some j, none => some (j, st.fnCount)
  | _, _, _, _ => none

/-- One iteration of the `for item in &input.items` loop of
`Functions::try_from`, for a function member.  In source order: the
return-type check (two `emit_error` calls on mismatch), the async/const
mutual-exclusion check (`emit_error` + `abort`), the signature and call
pushes (the call construction can die on an unsupported pattern), and the
`set_flag` updates. -/
def extractStep (st : ExtractState) (sig : Signature) : LoopOut :=
  let i := st.fnCount
  let firstRet := match st.firstRet with
    | some p => some p
    | none => some (i, sig.output)
  let diags := st.diags ++ mismatchDiags st sig
  match mixOf st sig with
  | some (ai, ci) =>
    LoopOut.abort (diags ++ [Diag.asyncConstMix (Span.asyncTok ai)])
      (Diag.asyncConstMix (Span.constTok ci))
  | none =>
    match callOf sig with
    | none => LoopOut.panic diags
    | some c =>
      LoopOut.ok
        { signatures := st.signatures ++ [sig]
          calls := st.calls ++ [c]
          asyncness := if sig.asyncness then some i else st.asyncness
          constness := if sig.constness then some i else st.constness
          unsafety := if sig.unsafety then some i else st.unsafety
          firstRet := firstRet
          diags := diags
          fnCount := i + 1 }

/-- Extraction loop over the function members only (non-function items are
skipped by the `if let ImplItem::Fn` of the source without any effect). -/
def sigsLoop : List Signature → ExtractState → LoopOut
  | [], st => LoopOut.ok st
  | s :: rest, st =>
    match extractStep st s with
    | .ok st1 => sigsLoop rest st1
    | .abort e d => LoopOut.abort e d
    | .panic e => LoopOut.panic e

/-- Extraction loop over the full member list, mirroring the source's
iteration item by item. -/
def extractLoop : List ImplItem → ExtractState → LoopOut
  | [], st => LoopOut.ok st
  | .fn sig :: rest, st =>
    match extractStep st sig with
    | .ok st1 => extractLoop rest st1
    | .abort e d => LoopOut.abort e d
    | .panic e => LoopOut.panic e
  | .other _ :: rest, st => extractLoop rest st

/-- The `syn::Error` side of `TryFrom`'s `Result` channel.  The source
declares it as the error type but never constructs one inside
`try_from`. -/
structure SynError where
  msg : String
deriving DecidableEq

/-- Overall result of `Functions::try_from`: a fatal abort, a fatal panic,
or a returned `Result` value together with the non-fatally emitted
diagnostics. -/
inductive TryFromResult where
  | fatalAbort (emitted : List Diag) (d : Diag)
  | fatalPanic (emitted : List Diag)
  | returns (value : Except SynError Functions) (emitted : List Diag)

/-- Embedding of `Functions::try_from` (`extract.rs` lines 41-133): run the
loop from the fresh state, then set `return_type` from the first-seen one
(or leave the default) and return `Ok`. -/
def tryFrom (input : ItemImpl) : TryFromResult :=
  match extractLoop input.items ExtractState.init with
  | .abort e d => TryFromResult.fatalAbort e d
  | .panic e => TryFromResult.fatalPanic e
  | .ok st =>
    let rt := match st.firstRet with
      | some p => p.2
      | none => ReturnType.default
    TryFromResult.returns
      (Except.ok
        { signatures := st.signatures, return_type := rt, calls := st.calls,
          asyncness := st.asyncness, constness := st.constness,
          unsafety := st.unsafety })
      st.diags

/-- Decision of whether a result went through the `Err` channel of the
`Result` return type. -/
def isErrReturn : TryFromResult → Bool
  | .returns (.error _) _ => true
  | _ => false

/-! Embedding of `generate.rs`. -/

/-- Splitting of an identifier's character list at underscores, the word
boundary relevant for snake_case function names (the crate feeds
`convert_case` Rust function identifiers). -/
def splitUnderscore : List Char → List (List Char)
  | [] => [[]]
  | c :: cs =>
    let r := splitUnderscore cs
    if c = '_' then [] :: r
    else
      match r with
      | [] => [[c]]
      | w :: ws => (c :: w) :: ws

/-- Capitalization of one word: first character upper-cased, the rest
lower-cased, as `convert_case` does per word for `Case::Pascal`. -/
def capWord : List Char → List Char
  | [] => []
  | c :: cs => c.toUpper :: cs.map Char.toLower

/-- PascalCase conversion (`to_case(Case::Pascal)` of the `convert_case`
collaborator) on snake_case identifiers: split at underscores, drop empty
segments, capitalize each word, concatenate. -/
def toPascal (s : String) : String :=
  String.mk ((((splitUnderscore s.data).filter (fun w => w ≠ [])).map capWord).flatten)

/-- Field name of a generated variant field: a proper identifier, or the
wildcard token (under `syn` with the `full` feature, `_ : T` parses as a
field whose name is the `_` identifier). -/
inductive FieldName where
  | named (s : String)
  | wildcard
deriving DecidableEq

/-- One named field of a generated variant. -/
structure Field where
  name : FieldName
  ty : Ty
deriving DecidableEq

/-- One generated variant: PascalCase identifier and, when the source
function has any inputs, a braced named-field list (possibly empty when
the only input was the receiver). -/
structure Variant where
  vname : String
  fields : Option (List Field)
deriving DecidableEq

/-- Conversion of one `FnArg` into a named field, as the interpolation
`{ #(#inputs),* }` of `convert_single` prints it: `x : T` parses as field
`x`, `_ : T` parses as a wildcard-named field, while a receiver (keyword
`self`) or a destructuring pattern does not parse as a named field at all,
so `parse_quote` dies — modelled as `none`. -/
def fieldOfArg : FnArg → Option Field
  | .typed (.ident x) t => some { name := FieldName.named x, ty := t }
  | .typed .wild t => some { name := FieldName.wildcard, ty := t }
  | .typed (.other _) _ => none
  | .receiver => none

/-- Option-valued map over a list, failing when any element fails (the
shape of `parse_quote` over the interpolated argument list). -/
def mapOption {α β : Type} (f : α → Option β) : List α → Option (List β)
  | [] => some []
  | a :: as =>
    match f a, mapOption f as with
    | some b, some bs => some (b :: bs)
    | _, _ => none

/-- Embedding of `Variants::convert_single` (`generate.rs` lines 13-31):
PascalCase the function name; when the input list is empty emit no field
braces at all, otherwise drop a leading receiver and interpolate every
remaining input as a named field. -/
def convert_single (sig : Signature) : Option Variant :=
  let vname := toPascal sig.ident
  if sig.inputs.isEmpty then some { vname := vname, fields := none }
  else
    let rest := match sig.inputs with
      | .receiver :: tl => tl
      | l => l
    (mapOption fieldOfArg rest).map (fun fs => { vname := vname, fields := some fs })

/-- Embedding of `impl From<&Functions> for Variants`: one variant per
extracted signature, in order. -/
def variantsOf (fs : Functions) : Option (List Variant) :=
  mapOption convert_single fs.signatures

/-! Emitter of the most-complete revision, modelled from the spec.
The `lib.rs` that consumes `extract.rs`/`generate.rs` is not part of the
repository; only the pieces the claims need are modelled here, and each
carries a `Modelled from the spec` marker. -/

/-- Modelled from the spec: the signature of the generated dispatch
operation `map` (the emitter assembling it is missing from the sources).
Per the spec it "takes the union value by consuming ownership (not by
reference) as its sole required parameter", carries the qualifiers copied
from the Function Set's aggregated flags and the Function Set's unified
return type. -/
structure MapSignature where
  selfByValue : Bool
  extraParams : List FnArg
  asyncness : Bool
  constness : Bool
  unsafety : Bool
  output : ReturnType
deriving DecidableEq

/-- Modelled from the spec: the dispatch operation's signature as the
missing emitter would assemble it from the extractor's output. -/
def mapSignature (fs : Functions) : MapSignature :=
  { selfByValue := true
    extraParams := []
    asyncness := fs.asyncness.isSome
    constness := fs.constness.isSome
    unsafety := fs.unsafety.isSome
    output := fs.return_type }

/-- A constructed union value: the variant identifier and the values of
its fields, in field order. -/
structure UnionValue (V : Type) where
  variantName : String
  fieldVals : List V

/-- Environment binding the destructured field names of a match arm to the
constructed value's field values; a wildcard-named field binds nothing
(but consumes its value slot). -/
def bindFields {V : Type} : List Field → List V → String → Option V
  | { name := FieldName.named n, ty := _ } :: fs, v :: vs, x =>
    if x = n then some v else bindFields fs vs x
  | { name := FieldName.wildcard, ty := _ } :: fs, _ :: vs, x => bindFields fs vs x
  | _, _, _ => none

/-- Evaluation of a call's argument names under an environment. -/
def evalArgs {V : Type} (env : String → Option V) : List String → Option (List V)
  | [] => some []
  | a :: as =>
    match env a, evalArgs env as with
    | some v, some vs => some (v :: vs)
    | _, _ => none

/-- Denotational semantics of a forwarding-call expression under an
interpretation `I` of the block's functions: a call evaluates its argument
names and applies the function's denotation; awaiting a call yields the
value the driven computation produces, i.e. the same denotation (the
suspension wrapper is purely syntactic, per the spec).  Receiver-carrying
calls are outside the modelled fragment. -/
def evalExpr {V : Type} (I : String → List V → V) (env : String → Option V) :
    Expr → Option V
  | .call f receiver args =>
    if receiver then none else (evalArgs env args).map (I f)
  | .await e => evalExpr I env e

/-- Modelled from the spec: the body of the dispatch operation (the
missing emitter) — an exhaustive match with one arm per variant; the arm
whose variant matches the constructed value destructures its fields into
their names and evaluates the index-aligned call expression. -/
def dispatch {V : Type} (I : String → List V → V) (fs : Functions)
    (v : UnionValue V) : Option V :=
  match variantsOf fs with
  | none => none
  | some variants =>
    match (variants.zip fs.calls).find? (fun p => p.1.vname == v.variantName) with
    | none => none
    | some p => evalExpr I (bindFields (p.1.fields.getD []) v.fieldVals) p.2

/-- Names of the plainly-bound arguments of an input list, in order. -/
def argNames (inputs : List FnArg) : List String :=
  inputs.filterMap (fun a =>
    match a with
    | .typed (.ident n) _ => some n
    | _ => none)

/-- Proper identifiers among a field list's names, in order. -/
def fieldNames (fl : List Field) : List String :=
  fl.filterMap (fun f =>
    match f.name with
    | FieldName.named n => some n
    | FieldName.wildcard => none)

/-! Embedding of the early, self-contained revision (`src/lib.rs`).  Its
variants are bare identifiers (no fields); `map` is the first function's
signature with `self` inserted by value in front, and every match arm
passes the first function's own argument patterns to its function.  Both
of its diagnostics are built with `syn::Error::new(..).into_compile_error()`
whose returned token stream is discarded, so the scan continues and
nothing is emitted in either case. -/

/-- Name-blanking used by the signature comparison of `lib.rs`: the
`anonimize` helper replaces the identifier before structural equality. -/
def anonimize (s : Signature) : Signature :=
  { s with ident := "anon" }

/-- Patterns of the typed arguments of an input list; a receiver among the
pairs hits the `unreachable` arm in `lib.rs` lines 253-258, killing the
macro — modelled as `none`. -/
def argPatsOf : List FnArg → Option (List Pat)
  | [] => some []
  | .typed p _ :: rest => (argPatsOf rest).map (fun ps => p :: ps)
  | .receiver :: _ => none

/-- The generated `map` item of the early revision: its signature, the
match arms as (variant, function) pairs, and the argument patterns
(taken from the first function's signature and shared by every arm). -/
structure LibMap where
  sig : Signature
  arms : List (String × String)
  argPats : List Pat
deriving DecidableEq

/-- Output of the early revision: the variant identifiers of the generated
enum and the appended `map` item (absent when no function was found). -/
structure LibOutput where
  enumVariants : List String
  map : Option LibMap
deriving DecidableEq

/-- Result of the early revision's macro: a panic from the `unreachable`
arm, or the output together with the diagnostics actually emitted. -/
inductive LibResult where
  | panicked
  | output (emitted : List Diag) (o : LibOutput)
deriving DecidableEq

/-- The scan loop of `lib.rs` lines 199-245: accumulate the PascalCase
variant identifiers and the function names; for the first function, check
it for a receiver; for every later one, compare its name-blanked signature
with the first one's.  In both checks the source constructs a
`syn::Error` and calls `into_compile_error()`, but the resulting token
stream is dropped on the floor, so both branches of each check continue
identically and no diagnostic is recorded. -/
def libScan : List ImplItem → Option Signature → List String → List String →
    Option Signature × List String × List String
  | [], first, vars, fns => (first, vars, fns)
  | .fn f :: rest, some first, vars, fns =>
    if anonimize first ≠ anonimize f then
      -- mismatched signatures: error built, then discarded by the source
      libScan rest (some first) (vars ++ [toPascal f.ident]) (fns ++ [f.ident])
    else
      libScan rest (some first) (vars ++ [toPascal f.ident]) (fns ++ [f.ident])
  | .fn f :: rest, none, vars, fns =>
    if recvFlag f then
      -- receiver on the first function: error built, then discarded too
      libScan rest (some f) (vars ++ [toPascal f.ident]) (fns ++ [f.ident])
    else
      libScan rest (some f) (vars ++ [toPascal f.ident]) (fns ++ [f.ident])
  | .other _ :: rest, first, vars, fns => libScan rest first vars fns

/-- Embedding of `enum_from_functions` (`lib.rs` lines 177-280), member
handling only (attribute relocation and the `pub` invocation argument do
not bear on any claim): scan the items, then, when at least one function
was found, append a `map` whose signature is the first function's with
`self` inserted by value at position 0, whose arms pair each variant with
its function, and whose shared argument list is the first function's
patterns — dying on the `unreachable` arm when those contain a
receiver. -/
def enum_from_functions (input : ItemImpl) : LibResult :=
  match libScan input.items none [] [] with
  | (none, vars, _) => LibResult.output [] { enumVariants := vars, map := none }
  | (some first, vars, fns) =>
    match argPatsOf first.inputs with
    | none => LibResult.panicked
    | some pats =>
      LibResult.output []
        { enumVariants := vars
          map := some
            { sig := { first with ident := "map", inputs := FnArg.receiver :: first.inputs }
              arms := vars.zip fns
              argPats := pats } }

/-! Concrete inputs used by the counterexamples and witnesses below. -/

/-- Shorthand for a signature with no effect qualifiers. -/
def plainSig (name : String) (inputs : List FnArg) (out : ReturnType) : Signature :=
  { constness := false, asyncness := false, unsafety := false,
    ident := name, inputs := inputs, output := out }

/-- An `impl` block whose single function is declared both `const` and
`async` (syntactically representable in a token stream; `syn` parses both
qualifiers independently). -/
def bothQualInput : ItemImpl :=
  ⟨[ImplItem.fn { constness := true, asyncness := true, unsafety := false,
                  ident := "f", inputs := [], output := ReturnType.ty ("i32") }]⟩

/-- An `impl` block with one `async` function followed by one `const`
function. -/
def asyncThenConstInput : ItemImpl :=
  ⟨[ImplItem.fn { constness := false, asyncness := true, unsafety := false,
                  ident := "f", inputs := [], output := ReturnType.ty ("i32") },
    ImplItem.fn { constness := true, asyncness := false, unsafety := false,
                  ident := "g", inputs := [], output := ReturnType.ty ("i32") }]⟩

/-- An `impl` block with an `async` function followed by a
`const async` function. -/
def asyncThenBothInput : ItemImpl :=
  ⟨[ImplItem.fn { constness := false, asyncness := true, unsafety := false,
                  ident := "f", inputs := [], output := ReturnType.ty ("i32") },
    ImplItem.fn { constness := true, asyncness := true, unsafety := false,
                  ident := "g", inputs := [], output := ReturnType.ty ("i32") }]⟩

/-- An `impl` block with two `async` functions (no `const` anywhere). -/
def twoAsyncInput : ItemImpl :=
  ⟨[ImplItem.fn { constness := false, asyncness := true, unsafety := false,
                  ident := "f", inputs := [], output := ReturnType.ty ("i32") },
    ImplItem.fn { constness := false, asyncness := true, unsafety := false,
                  ident := "g", inputs := [], output := ReturnType.ty ("i32") }]⟩

/-- The spec's concrete scenario: `foo() -> &str` and `bar(baz: i32) ->
&str`. -/
def fooBarInput : ItemImpl :=
  ⟨[ImplItem.fn (plainSig ("foo") [] (ReturnType.ty ("&str"))),
    ImplItem.fn (plainSig ("bar") [FnArg.typed (Pat.ident ("baz")) ("i32")]
      (ReturnType.ty ("&str")))]⟩

/-- Interpretation of the `foo`/`bar` block over string results, matching
the spec's scenario: `foo` returns `"Foo"`, `bar` returns `"Bar"`. -/
def fooBarInterp : String → List String → String :=
  fun f _ => if f = ("bar") then ("Bar") else ("Foo")

/-- An `impl` block with one `unsafe` and one `async` function. -/
def unsafeAsyncInput : ItemImpl :=
  ⟨[ImplItem.fn { constness := false, asyncness := false, unsafety := true,
                  ident := "u", inputs := [], output := ReturnType.ty ("i32") },
    ImplItem.fn { constness := false, asyncness := true, unsafety := false,
                  ident := "a", inputs := [], output := ReturnType.ty ("i32") }]⟩

/-- An `impl` block with a single `async` function taking one argument. -/
def oneAsyncInput : ItemImpl :=
  ⟨[ImplItem.fn { constness := false, asyncness := true, unsafety := false,
                  ident := "f", inputs := [FnArg.typed (Pat.ident ("x")) ("i32")],
                  output := ReturnType.ty ("i32") }]⟩

/-- The spec's field-correspondence example: `f(x: i32, _: bool)`. -/
def wildcardSig : Signature :=
  plainSig ("f") [FnArg.typed (Pat.ident ("x")) ("i32"),
                  FnArg.typed Pat.wild ("bool")] (ReturnType.ty ("i32"))

/-- An `impl` block whose second function declares a receiver:
`fn a() -> i32` followed by `fn b(self) -> i32`. -/
def lateRecvInput : ItemImpl :=
  ⟨[ImplItem.fn (plainSig ("a") [] (ReturnType.ty ("i32"))),
    ImplItem.fn (plainSig ("b") [FnArg.receiver] (ReturnType.ty ("i32")))]⟩

/-- First function of the signature-mismatch example:
`fn foo(a: i32) -> i32`. -/
def mismatchFooSig : Signature :=
  plainSig ("foo") [FnArg.typed (Pat.ident ("a")) ("i32")] (ReturnType.ty ("i32"))

/-- Second function of the signature-mismatch example:
`fn bar(b: i32) -> i32` — same shape, differently named binding. -/
def mismatchBarSig : Signature :=
  plainSig ("bar") [FnArg.typed (Pat.ident ("b")) ("i32")] (ReturnType.ty ("i32"))

/-- An `impl` block whose two functions' name-blanked signatures differ
(in the argument binding name only). -/
def mismatchSigInput : ItemImpl :=
  ⟨[ImplItem.fn mismatchFooSig, ImplItem.fn mismatchBarSig]⟩

/-- An `impl` block whose two functions declare different return types:
`fn foo() -> &str` and `fn bar() -> String`. -/
def retMismatchInput : ItemImpl :=
  ⟨[ImplItem.fn (plainSig ("foo") [] (ReturnType.ty ("&str"))),
    ImplItem.fn (plainSig ("bar") [] (ReturnType.ty ("String")))]⟩

/-- The Function Set the extractor produces for `twoAsyncInput`. -/
def twoAsyncFns : Functions :=
  { signatures := fnSigs twoAsyncInput.items
    return_type := ReturnType.ty ("i32")
    calls := [Expr.await (Expr.call ("f") false []),
              Expr.await (Expr.call ("g") false [])]
    asyncness := some 1
    constness := none
    unsafety := none }

/-- The Function Set the extractor produces for `unsafeAsyncInput`. -/
def unsafeAsyncFns : Functions :=
  { signatures := fnSigs unsafeAsyncInput.items
    return_type := ReturnType.ty ("i32")
    calls := [Expr.call ("u") false [],
              Expr.await (Expr.call ("a") false [])]
    asyncness := some 1
    constness := none
    unsafety := some 0 }

/-- The Function Set the extractor produces for `oneAsyncInput`. -/
def oneAsyncFns : Functions :=
  { signatures := fnSigs oneAsyncInput.items
    return_type := ReturnType.ty ("i32")
    calls := [Expr.await (Expr.call ("f") false [("x")])]
    asyncness := some 0
    constness := none
    unsafety := none }

/-- The Function Set the extractor produces for `fooBarInput`. -/
def fooBarFns : Functions :=
  { signatures := fnSigs fooBarInput.items
    return_type := ReturnType.ty ("&str")
    calls := [Expr.call ("foo") false [],
              Expr.call ("bar") false [("baz")]]
    asyncness := none
    constness := none
    unsafety := none }

/-! Structural lemmas about the extraction loop. -/

/-- The item loop only acts on function members, so it equals the loop
over the extracted function signatures. -/
theorem extractLoop_eq_sigsLoop (items : List ImplItem) :
    ∀ st, extractLoop items st = sigsLoop (fnSigs items) st := by
  induction items with
  | nil => intro st; rfl
  | cons it rest ih =>
    intro st
    cases it with
    | fn sig =>
      simp only [extractLoop, fnSigs, List.filterMap_cons, sigsLoop]
      cases extractStep st sig <;> simp [ih, fnSigs]
    | other d =>
      simp only [extractLoop, fnSigs, List.filterMap_cons]
      exact ih st

/-- Inversion of a successful extraction step: the mutual-exclusion check
fell through, the call construction succeeded, and each state field is
updated the way the source updates it. -/
theorem extractStep_ok_fields (st : ExtractState) (sig : Signature)
    (st2 : ExtractState) (h : extractStep st sig = LoopOut.ok st2) :
    mixOf st sig = none ∧
    (∃ c, callOf sig = some c ∧ st2.calls = st.calls ++ [c]) ∧
    st2.signatures = st.signatures ++ [sig] ∧
    st2.asyncness = (if sig.asyncness then some st.fnCount else st.asyncness) ∧
    st2.constness = (if sig.constness then some st.fnCount else st.constness) ∧
    st2.unsafety = (if sig.unsafety then some st.fnCount else st.unsafety) ∧
    st2.firstRet = (match st.firstRet with
      | some p => some p
      | none => some (st.fnCount, sig.output)) ∧
    st2.diags = st.diags ++ mismatchDiags st sig ∧
    st2.fnCount = st.fnCount + 1 := by
  unfold extractStep at h
  cases hmix : mixOf st sig with
  | some p => rw [hmix] at h; cases p; simp at h
  | none =>
    rw [hmix] at h
    cases hc : callOf sig with
    | none => rw [hc] at h; simp at h
    | some c =>
      rw [hc] at h
      simp only [LoopOut.ok.injEq] at h
      subst h
      exact ⟨rfl, ⟨c, rfl, rfl⟩, rfl, rfl, rfl, rfl, rfl, rfl, rfl⟩

/-- Inversion of an aborting step: the mutual-exclusion check fired, and
the aborting diagnostic is the async/const error at the `const` token. -/
theorem extractStep_abort (st : ExtractState) (sig : Signature)
    (e : List Diag) (d : Diag) (h : extractStep st sig = LoopOut.abort e d) :
    ∃ ai ci, mixOf st sig = some (ai, ci) ∧
      e = st.diags ++ mismatchDiags st sig ++ [Diag.asyncConstMix (Span.asyncTok ai)] ∧
      d = Diag.asyncConstMix (Span.constTok ci) := by
  unfold extractStep at h
  cases hmix : mixOf st sig with
  | some p =>
    rw [hmix] at h
    cases p with
    | mk ai ci =>
      simp only [LoopOut.abort.injEq] at h
      exact ⟨ai, ci, rfl, h.1.symm, h.2.symm⟩
  | none =>
    rw [hmix] at h
    cases hc : callOf sig with
    | none => rw [hc] at h; simp at h
    | some c => rw [hc] at h; simp at h

/-- Inversion of a panicking step: the call construction died on an
unsupported argument pattern. -/
theorem extractStep_panic (st : ExtractState) (sig : Signature)
    (e : List Diag) (h : extractStep st sig = LoopOut.panic e) :
    callOf sig = none := by
  unfold extractStep at h
  cases hmix : mixOf st sig with
  | some p => rw [hmix] at h; cases p; simp at h
  | none =>
    rw [hmix] at h
    cases hc : callOf sig with
    | none => rfl
    | some c => rw [hc] at h; simp at h

/-- Peeling one signature off a successful loop run. -/
theorem sigsLoop_ok_cons (s : Signature) (rest : List Signature)
    (st st1 : ExtractState) (h : sigsLoop (s :: rest) st = LoopOut.ok st1) :
    ∃ st2, extractStep st s = LoopOut.ok st2 ∧ sigsLoop rest st2 = LoopOut.ok st1 := by
  unfold sigsLoop at h
  cases hstep : extractStep st s with
  | ok st2 => exact ⟨st2, rfl, by rwa [hstep] at h⟩
  | abort e d => rw [hstep] at h; cases h
  | panic e => rw [hstep] at h; cases h

/-- Inversion of the empty loop run. -/
theorem sigsLoop_ok_nil (st st1 : ExtractState)
    (h : sigsLoop [] st = LoopOut.ok st1) : st1 = st := by
  unfold sigsLoop at h
  cases h
  rfl

/-- A successful run appends exactly the processed signatures, in
order. -/
theorem sigsLoop_ok_signatures : ∀ (sigs : List Signature) (st st1 : ExtractState),
    sigsLoop sigs st = LoopOut.ok st1 → st1.signatures = st.signatures ++ sigs
  | [], st, st1, h => by rw [sigsLoop_ok_nil st st1 h]; simp
  | s :: rest, st, st1, h => by
    obtain ⟨st2, hstep, hrest⟩ := sigsLoop_ok_cons s rest st st1 h
    obtain ⟨-, -, hsig, -⟩ := extractStep_ok_fields st s st2 hstep
    rw [sigsLoop_ok_signatures rest st2 st1 hrest, hsig]
    simp

/-- A successful run appends exactly the forwarding calls of the processed
signatures, all of which were therefore constructible. -/
theorem sigsLoop_ok_calls : ∀ (sigs : List Signature) (st st1 : ExtractState),
    sigsLoop sigs st = LoopOut.ok st1 →
    ∃ cs, mapOption callOf sigs = some cs ∧ st1.calls = st.calls ++ cs
  | [], st, st1, h => ⟨[], rfl, by rw [sigsLoop_ok_nil st st1 h]; simp⟩
  | s :: rest, st, st1, h => by
    obtain ⟨st2, hstep, hrest⟩ := sigsLoop_ok_cons s rest st st1 h
    obtain ⟨-, ⟨c, hc, hcalls⟩, -⟩ := extractStep_ok_fields st s st2 hstep
    obtain ⟨cs, hmap, hrest2⟩ := sigsLoop_ok_calls rest st2 st1 hrest
    refine ⟨c :: cs, ?_, ?_⟩
    · unfold mapOption; rw [hc, hmap]
    · rw [hrest2, hcalls]; simp

/-- The accumulated `async` flag of a successful run is set exactly when
it was set before or some processed function is asynchronous. -/
theorem sigsLoop_ok_async : ∀ (sigs : List Signature) (st st1 : ExtractState),
    sigsLoop sigs st = LoopOut.ok st1 →
    (st1.asyncness.isSome = true ↔
      st.asyncness.isSome = true ∨ ∃ s ∈ sigs, s.asyncness = true)
  | [], st, st1, h => by rw [sigsLoop_ok_nil st st1 h]; simp
  | s :: rest, st, st1, h => by
    obtain ⟨st2, hstep, hrest⟩ := sigsLoop_ok_cons s rest st st1 h
    obtain ⟨-, -, -, hflag, -⟩ := extractStep_ok_fields st s st2 hstep
    rw [sigsLoop_ok_async rest st2 st1 hrest, hflag]
    cases hs : s.asyncness <;> simp [hs]

/-- The accumulated `const` flag of a successful run is set exactly when
it was set before or some processed function is const. -/
theorem sigsLoop_ok_const : ∀ (sigs : List Signature) (st st1 : ExtractState),
    sigsLoop sigs st = LoopOut.ok st1 →
    (st1.constness.isSome = true ↔
      st.constness.isSome = true ∨ ∃ s ∈ sigs, s.constness = true)
  | [], st, st1, h => by rw [sigsLoop_ok_nil st st1 h]; simp
  | s :: rest, st, st1, h => by
    obtain ⟨st2, hstep, hrest⟩ := sigsLoop_ok_cons s rest st st1 h
    obtain ⟨-, -, -, -, hflag, -⟩ := extractStep_ok_fields st s st2 hstep
    rw [sigsLoop_ok_const rest st2 st1 hrest, hflag]
    cases hs : s.constness <;> simp [hs]

/-- The accumulated `unsafe` flag of a successful run is set exactly when
it was set before or some processed function is unsafe. -/
theorem sigsLoop_ok_unsafety : ∀ (sigs : List Signature) (st st1 : ExtractState),
    sigsLoop sigs st = LoopOut.ok st1 →
    (st1.unsafety.isSome = true ↔
      st.unsafety.isSome = true ∨ ∃ s ∈ sigs, s.unsafety = true)
  | [], st, st1, h => by rw [sigsLoop_ok_nil st st1 h]; simp
  | s :: rest, st, st1, h => by
    obtain ⟨st2, hstep, hrest⟩ := sigsLoop_ok_cons s rest st st1 h
    obtain ⟨-, -, -, -, -, hflag, -⟩ := extractStep_ok_fields st s st2 hstep
    rw [sigsLoop_ok_unsafety rest st2 st1 hrest, hflag]
    cases hs : s.unsafety <;> simp [hs]

/-- A first-seen return type, once recorded, survives the rest of the
run. -/
theorem sigsLoop_ok_firstRet : ∀ (sigs : List Signature) (st st1 : ExtractState)
    (p : Nat × ReturnType), sigsLoop sigs st = LoopOut.ok st1 →
    st.firstRet = some p → st1.firstRet = some p
  | [], st, st1, p, h, hp => by rw [sigsLoop_ok_nil st st1 h]; exact hp
  | s :: rest, st, st1, p, h, hp => by
    obtain ⟨st2, hstep, hrest⟩ := sigsLoop_ok_cons s rest st st1 h
    obtain ⟨-, -, -, -, -, -, hfr, -⟩ := extractStep_ok_fields st s st2 hstep
    exact sigsLoop_ok_firstRet rest st2 st1 p hrest (by rw [hfr, hp])

/-- A run started with no first-seen return type records the first
processed function's ordinal and return type. -/
theorem sigsLoop_ok_firstRet_of_cons (s : Signature) (rest : List Signature)
    (st st1 : ExtractState) (h : sigsLoop (s :: rest) st = LoopOut.ok st1)
    (hnone : st.firstRet = none) :
    st1.firstRet = some (st.fnCount, s.output) := by
  obtain ⟨st2, hstep, hrest⟩ := sigsLoop_ok_cons s rest st st1 h
  obtain ⟨-, -, -, -, -, -, hfr, -⟩ := extractStep_ok_fields st s st2 hstep
  exact sigsLoop_ok_firstRet rest st2 st1 _ hrest (by rw [hfr, hnone])

/-- Diagnostics only accumulate over a successful run. -/
theorem sigsLoop_ok_diags_mono : ∀ (sigs : List Signature) (st st1 : ExtractState),
    sigsLoop sigs st = LoopOut.ok st1 → ∃ extra, st1.diags = st.diags ++ extra
  | [], st, st1, h => ⟨[], by rw [sigsLoop_ok_nil st st1 h]; simp⟩
  | s :: rest, st, st1, h => by
    obtain ⟨st2, hstep, hrest⟩ := sigsLoop_ok_cons s rest st st1 h
    obtain ⟨-, -, -, -, -, -, -, hd, -⟩ := extractStep_ok_fields st s st2 hstep
    obtain ⟨extra, hextra⟩ := sigsLoop_ok_diags_mono rest st2 st1 hrest
    exact ⟨mismatchDiags st s ++ extra, by rw [hextra, hd]; simp⟩

/-- The function ordinal advances by the number of processed
signatures. -/
theorem sigsLoop_ok_fnCount : ∀ (sigs : List Signature) (st st1 : ExtractState),
    sigsLoop sigs st = LoopOut.ok st1 → st1.fnCount = st.fnCount + sigs.length
  | [], st, st1, h => by rw [sigsLoop_ok_nil st st1 h]; simp
  | s :: rest, st, st1, h => by
    obtain ⟨st2, hstep, hrest⟩ := sigsLoop_ok_cons s rest st st1 h
    obtain ⟨-, -, -, -, -, -, -, -, hc⟩ := extractStep_ok_fields st s st2 hstep
    rw [sigsLoop_ok_fnCount rest st2 st1 hrest, hc]
    simp [List.length_cons]
    omega

/-- The mutual-exclusion check falls through when the current function is
not const and nothing const has accumulated. -/
theorem mixOf_none_of_noConst (st : ExtractState) (s : Signature)
    (h1 : s.constness = false) (h2 : st.constness = none) :
    mixOf st s = none := by
  unfold mixOf
  rw [h1, h2]
  cases s.asyncness <;> cases st.asyncness <;> rfl

/-- As long as no processed function carries both the `async` and the
`const` qualifier, a successful run never accumulates both flags: the
step that would set the second flag matches one of the two abort arms
first. -/
theorem sigsLoop_ok_notBoth : ∀ (sigs : List Signature) (st st1 : ExtractState),
    sigsLoop sigs st = LoopOut.ok st1 →
    (∀ s ∈ sigs, ¬(s.asyncness = true ∧ s.constness = true)) →
    ¬(st.asyncness.isSome = true ∧ st.constness.isSome = true) →
    ¬(st1.asyncness.isSome = true ∧ st1.constness.isSome = true)
  | [], st, st1, h, _, hst => by rw [sigsLoop_ok_nil st st1 h]; exact hst
  | s :: rest, st, st1, h, hnb, hst => by
    obtain ⟨st2, hstep, hrest⟩ := sigsLoop_ok_cons s rest st st1 h
    obtain ⟨hmix, -, -, ha, hc, -⟩ := extractStep_ok_fields st s st2 hstep
    refine sigsLoop_ok_notBoth rest st2 st1 hrest (fun x hx => hnb x (by simp [hx])) ?_
    rintro ⟨h2a, h2c⟩
    rw [ha] at h2a
    rw [hc] at h2c
    cases hsa : s.asyncness with
    | true =>
      cases hsc : s.constness with
      | true => exact hnb s (by simp) ⟨hsa, hsc⟩
      | false =>
        rw [hsc] at h2c
        simp at h2c
        cases hsta : st.asyncness with
        | some j => exact hst ⟨by rw [hsta]; rfl, h2c⟩
        | none =>
          obtain ⟨j, hj⟩ := Option.isSome_iff_exists.mp h2c
          rw [mixOf, hsa, hsc, hsta, hj] at hmix
          cases hmix
    | false =>
      rw [hsa] at h2a
      simp at h2a
      cases hsc : s.constness with
      | false =>
        rw [hsc] at h2c
        simp at h2c
        exact hst ⟨h2a, h2c⟩
      | true =>
        cases hstc : st.constness with
        | some j => exact hst ⟨h2a, by rw [hstc]; rfl⟩
        | none =>
          obtain ⟨j, hj⟩ := Option.isSome_iff_exists.mp h2a
          rw [mixOf, hsa, hsc, hj, hstc] at hmix
          cases hmix

/-- An abort of the loop always carries the async/const mutual-exclusion
diagnostic, at a `const` token. -/
theorem sigsLoop_abort_shape : ∀ (sigs : List Signature) (st : ExtractState)
    (e : List Diag) (d : Diag), sigsLoop sigs st = LoopOut.abort e d →
    ∃ i, d = Diag.asyncConstMix (Span.constTok i)
  | [], st, e, d, h => by unfold sigsLoop at h; cases h
  | s :: rest, st, e, d, h => by
    unfold sigsLoop at h
    cases hstep : extractStep st s with
    | ok st2 =>
      rw [hstep] at h
      exact sigsLoop_abort_shape rest st2 e d h
    | abort e2 d2 =>
      rw [hstep] at h
      cases h
      obtain ⟨ai, ci, -, -, hd⟩ := extractStep_abort st s e d hstep
      exact ⟨ci, hd⟩
    | panic e2 => rw [hstep] at h; cases h

/-- When every processed function's argument patterns are supported, the
loop never panics. -/
theorem sigsLoop_no_panic : ∀ (sigs : List Signature) (st : ExtractState)
    (e : List Diag), (∀ s ∈ sigs, (callOf s).isSome = true) →
    sigsLoop sigs st ≠ LoopOut.panic e
  | [], st, e, _, h => by unfold sigsLoop at h; cases h
  | s :: rest, st, e, hc, h => by
    unfold sigsLoop at h
    cases hstep : extractStep st s with
    | ok st2 =>
      rw [hstep] at h
      exact sigsLoop_no_panic rest st2 e (fun x hx => hc x (by simp [hx])) h
    | abort e2 d2 => rw [hstep] at h; cases h
    | panic e2 =>
      have := extractStep_panic st s e2 hstep
      have h2 := hc s (by simp)
      rw [this] at h2
      cases h2

/-- When no processed function is const and nothing const has accumulated
and every call is constructible, the loop completes. -/
theorem sigsLoop_noConst_ok : ∀ (sigs : List Signature) (st : ExtractState),
    (∀ s ∈ sigs, s.constness = false) →
    (∀ s ∈ sigs, (callOf s).isSome = true) →
    st.constness = none →
    ∃ st1, sigsLoop sigs st = LoopOut.ok st1
  | [], st, _, _, _ => ⟨st, rfl⟩
  | s :: rest, st, hnc, hcall, hstc => by
    have hs : s.constness = false := hnc s (by simp)
    have hmix := mixOf_none_of_noConst st s hs hstc
    obtain ⟨c, hc⟩ := Option.isSome_iff_exists.mp (hcall s (by simp))
    cases hstep : extractStep st s with
    | abort e d =>
      exfalso
      obtain ⟨ai, ci, hm, -⟩ := extractStep_abort st s e d hstep
      rw [hmix] at hm
      cases hm
    | panic e =>
      exfalso
      have hp := extractStep_panic st s e hstep
      rw [hc] at hp
      cases hp
    | ok st2 =>
      obtain ⟨-, -, -, -, hcn, -⟩ := extractStep_ok_fields st s st2 hstep
      obtain ⟨st1, h1⟩ := sigsLoop_noConst_ok rest st2
        (fun x hx => hnc x (by simp [hx])) (fun x hx => hcall x (by simp [hx]))
        (by rw [hcn, hs]; simp [hstc])
      exact ⟨st1, by unfold sigsLoop; rw [hstep]; exact h1⟩

/-- A processed function whose return type differs from the first-seen one
leaves both return-type-mismatch diagnostics in the final diagnostics: one
at the unifying type's span citing the offending type, one at the
offending function's return-type span citing the unifying type. -/
theorem sigsLoop_ok_mismatch_mem :
    ∀ (sigs : List Signature) (k : Nat) (st st1 : ExtractState)
      (i0 : Nat) (rt0 : ReturnType) (hk : k < sigs.length),
    sigsLoop sigs st = LoopOut.ok st1 → st.firstRet = some (i0, rt0) →
    (sigs.get ⟨k, hk⟩).output ≠ rt0 →
    Diag.retMismatch (Span.output i0) (sigs.get ⟨k, hk⟩).output ∈ st1.diags ∧
    Diag.retMismatch (Span.output (st.fnCount + k)) rt0 ∈ st1.diags
  | [], k, _, _, _, _, hk, _, _, _ => absurd hk (by simp)
  | s :: rest, 0, st, st1, i0, rt0, hk, h, hfr, hne => by
    obtain ⟨st2, hstep, hrest⟩ := sigsLoop_ok_cons s rest st st1 h
    obtain ⟨-, -, -, -, -, -, -, hd, -⟩ := extractStep_ok_fields st s st2 hstep
    obtain ⟨extra, hextra⟩ := sigsLoop_ok_diags_mono rest st2 st1 hrest
    have hm : mismatchDiags st s =
        [Diag.retMismatch (Span.output i0) s.output,
         Diag.retMismatch (Span.output st.fnCount) rt0] := by
      unfold mismatchDiags
      rw [hfr]
      simp only [List.get] at hne
      have hne2 : ¬rt0 = s.output := fun h2 => hne h2.symm
      simp [hne2]
    rw [hextra, hd, hm]
    constructor <;> simp [List.get]
  | s :: rest, k + 1, st, st1, i0, rt0, hk, h, hfr, hne => by
    obtain ⟨st2, hstep, hrest⟩ := sigsLoop_ok_cons s rest st st1 h
    obtain ⟨-, -, -, -, -, -, hfr2, -, hcnt⟩ := extractStep_ok_fields st s st2 hstep
    have hfr2s : st2.firstRet = some (i0, rt0) := by rw [hfr2, hfr]
    have hk2 : k < rest.length := by simpa using hk
    have ih := sigsLoop_ok_mismatch_mem rest k st2 st1 i0 rt0 hk2 hrest hfr2s
      (by simpa [List.get] using hne)
    rw [hcnt] at ih
    have harith : st.fnCount + (k + 1) = st.fnCount + 1 + k := by omega
    simpa [List.get, harith] using ih

/-- Unfolding of a successful `Functions::try_from` into its loop run: the
returned value's fields are the final state's, and the return type is the
first-seen one (or the default when no function was found). -/
theorem tryFrom_ok_loop (input : ItemImpl) (fs : Functions) (ds : List Diag)
    (h : tryFrom input = TryFromResult.returns (Except.ok fs) ds) :
    ∃ st1, sigsLoop (fnSigs input.items) ExtractState.init = LoopOut.ok st1 ∧
      fs.signatures = st1.signatures ∧ fs.calls = st1.calls ∧
      fs.asyncness = st1.asyncness ∧ fs.constness = st1.constness ∧
      fs.unsafety = st1.unsafety ∧ ds = st1.diags ∧
      fs.return_type = (match st1.firstRet with
        | some p => p.2
        | none => ReturnType.default) := by
  unfold tryFrom at h
  rw [extractLoop_eq_sigsLoop] at h
  cases hloop : sigsLoop (fnSigs input.items) ExtractState.init with
  | ok st1 =>
    rw [hloop] at h
    simp only [TryFromResult.returns.injEq, Except.ok.injEq] at h
    obtain ⟨hfs, hds⟩ := h
    subst hfs
    subst hds
    exact ⟨st1, rfl, rfl, rfl, rfl, rfl, rfl, rfl, rfl⟩
  | abort e d => rw [hloop] at h; cases h
  | panic e => rw [hloop] at h; cases h

/-- Characterization of a successful extraction in terms of the input's
function members: the signature list is the members' signatures in order,
the calls are their forwarding calls, each aggregated flag is set exactly
when some member carries the qualifier, and the unified return type is the
first member's (or the default when there is none). -/
theorem tryFrom_ok_spec (input : ItemImpl) (fs : Functions) (ds : List Diag)
    (h : tryFrom input = TryFromResult.returns (Except.ok fs) ds) :
    fs.signatures = fnSigs input.items ∧
    mapOption callOf (fnSigs input.items) = some fs.calls ∧
    (fs.asyncness.isSome = true ↔ ∃ s ∈ fnSigs input.items, s.asyncness = true) ∧
    (fs.constness.isSome = true ↔ ∃ s ∈ fnSigs input.items, s.constness = true) ∧
    (fs.unsafety.isSome = true ↔ ∃ s ∈ fnSigs input.items, s.unsafety = true) ∧
    fs.return_type = (match fnSigs input.items with
      | [] => ReturnType.default
      | s :: _ => s.output) := by
  obtain ⟨st1, hloop, hsig, hcalls, ha, hc, hu, hds, hrt⟩ := tryFrom_ok_loop input fs ds h
  refine ⟨?_, ?_, ?_, ?_, ?_, ?_⟩
  · rw [hsig, sigsLoop_ok_signatures _ _ _ hloop]; rfl
  · obtain ⟨cs, hmap, hcs⟩ := sigsLoop_ok_calls _ _ _ hloop
    rw [hcalls, hcs]
    simpa [ExtractState.init] using hmap
  · rw [ha, sigsLoop_ok_async _ _ _ hloop]; simp [ExtractState.init]
  · rw [hc, sigsLoop_ok_const _ _ _ hloop]; simp [ExtractState.init]
  · rw [hu, sigsLoop_ok_unsafety _ _ _ hloop]; simp [ExtractState.init]
  · cases hfs : fnSigs input.items with
    | nil =>
      rw [hfs] at hloop
      rw [hrt, sigsLoop_ok_nil _ _ hloop]
      rfl
    | cons s rest =>
      rw [hfs] at hloop
      rw [hrt, sigsLoop_ok_firstRet_of_cons s rest _ _ hloop rfl]

/-! Lemmas about `mapOption`, list search and environment evaluation. -/

/-- A successful `mapOption` run is index-aligned with its input. -/
theorem mapOption_length_get {α β : Type} (f : α → Option β) :
    ∀ (l : List α) (l2 : List β), mapOption f l = some l2 →
      l2.length = l.length ∧
      ∀ k (hk : k < l.length) (hk2 : k < l2.length),
        f (l.get ⟨k, hk⟩) = some (l2.get ⟨k, hk2⟩)
  | [], l2, h => by
    simp only [mapOption, Option.some.injEq] at h
    subst h
    exact ⟨rfl, fun k hk hk2 => absurd hk (by simp)⟩
  | a :: as, l2, h => by
    unfold mapOption at h
    cases hfa : f a with
    | none =>
      rw [hfa] at h
      cases hrec : mapOption f as <;> rw [hrec] at h <;> simp at h
    | some b =>
      rw [hfa] at h
      cases hrec : mapOption f as with
      | none => rw [hrec] at h; simp at h
      | some bs =>
        rw [hrec] at h
        simp only [Option.some.injEq] at h
        subst h
        obtain ⟨hlen, hget⟩ := mapOption_length_get f as bs hrec
        refine ⟨by simp [hlen], ?_⟩
        intro k hk hk2
        cases k with
        | zero => simpa [List.get] using hfa
        | succ k =>
          simp only [List.get]
          exact hget k (by simpa using hk) (by simpa using hk2)

/-- Success of `mapOption` follows from success on every element. -/
theorem mapOption_isSome_of_all {α β : Type} (f : α → Option β) :
    ∀ (l : List α), (∀ a ∈ l, (f a).isSome = true) →
      ∃ l2, mapOption f l = some l2
  | [], _ => ⟨[], rfl⟩
  | a :: as, h => by
    obtain ⟨b, hb⟩ := Option.isSome_iff_exists.mp (h a (by simp))
    obtain ⟨bs, hbs⟩ := mapOption_isSome_of_all f as (fun x hx => h x (by simp [hx]))
    exact ⟨b :: bs, by unfold mapOption; rw [hb, hbs]⟩

/-- Finding in a zipped list the first pair whose left component
satisfies the predicate, when index `i` is the first hit. -/
theorem find_zip_first {α β : Type} (p : α → Bool) :
    ∀ (as : List α) (bs : List β) (i : Nat) (hia : i < as.length)
      (hib : i < bs.length),
      (∀ j (hj : j < i), p (as.get ⟨j, Nat.lt_trans hj hia⟩) = false) →
      p (as.get ⟨i, hia⟩) = true →
      (as.zip bs).find? (fun q => p q.1) =
        some (as.get ⟨i, hia⟩, bs.get ⟨i, hib⟩)
  | [], bs, i, hia, hib, h1, h2 => absurd hia (by simp)
  | a :: as, [], i, hia, hib, h1, h2 => absurd hib (by simp)
  | a :: as, b :: bs, 0, hia, hib, h1, h2 => by
    simp only [List.get] at h2 ⊢
    rw [List.zip_cons_cons, List.find?_cons_of_pos]
    exact h2
  | a :: as, b :: bs, i + 1, hia, hib, h1, h2 => by
    have h0 : p a = false := by
      have := h1 0 (Nat.succ_pos i)
      simpa [List.get] using this
    rw [List.zip_cons_cons, List.find?_cons_of_neg]
    · have hia2 : i < as.length := by simpa using hia
      have hib2 : i < bs.length := by simpa using hib
      have hfirst : ∀ j (hj : j < i), p (as.get ⟨j, Nat.lt_trans hj hia2⟩) = false := by
        intro j hj
        have := h1 (j + 1) (by omega)
        simpa [List.get] using this
      have := find_zip_first p as bs i hia2 hib2 hfirst (by simpa [List.get] using h2)
      rw [this]
      simp [List.get]
    · simp [h0]

/-- Evaluation of argument names only depends on the environment's values
at those names. -/
theorem evalArgs_congr {V : Type} (env env2 : String → Option V) :
    ∀ (as : List String), (∀ a ∈ as, env a = env2 a) →
      evalArgs env as = evalArgs env2 as
  | [], _ => rfl
  | a :: as, h => by
    unfold evalArgs
    rw [h a (by simp), evalArgs_congr env env2 as (fun x hx => h x (by simp [hx]))]

/-- Destructuring a list of plainly-named, duplicate-free fields and then
evaluating exactly those names returns the destructured values, in
order. -/
theorem evalArgs_bindFields {V : Type} :
    ∀ (fl : List Field) (vals : List V),
      (∀ f ∈ fl, ∃ n, f.name = FieldName.named n) →
      (fieldNames fl).Nodup →
      vals.length = fl.length →
      evalArgs (bindFields fl vals) (fieldNames fl) = some vals
  | [], [], _, _, _ => rfl
  | [], v :: vs, _, _, hl => by simp at hl
  | f :: fl, [], _, _, hl => by simp at hl
  | f :: fl, v :: vs, hnamed, hnd, hl => by
    obtain ⟨n, hn⟩ := hnamed f (by simp)
    obtain ⟨fname, fty⟩ := f
    simp only at hn
    subst hn
    have hnames : fieldNames ({ name := FieldName.named n, ty := fty } :: fl) =
        n :: fieldNames fl := by
      simp [fieldNames]
    rw [hnames] at hnd ⊢
    have hnotin : n ∉ fieldNames fl := (List.nodup_cons.mp hnd).1
    unfold evalArgs
    have hhead : bindFields ({ name := FieldName.named n, ty := fty } :: fl)
        (v :: vs) n = some v := by
      simp [bindFields]
    rw [hhead]
    have hcong : evalArgs (bindFields ({ name := FieldName.named n, ty := fty } :: fl)
          (v :: vs)) (fieldNames fl) = evalArgs (bindFields fl vs) (fieldNames fl) := by
      apply evalArgs_congr
      intro x hx
      have hxn : ¬x = n := fun he => hnotin (he ▸ hx)
      simp [bindFields, hxn]
    rw [hcong, evalArgs_bindFields fl vs (fun x hx => hnamed x (by simp [hx]))
      (List.nodup_cons.mp hnd).2 (by simpa using hl)]

/-! Lemmas about functions all of whose arguments are plainly named. -/

/-- On plainly-named argument lists, `without_types` succeeds and returns
exactly the binding names. -/
theorem without_types_simple : ∀ (inputs : List FnArg),
    (∀ a ∈ inputs, ∃ n t, a = FnArg.typed (Pat.ident n) t) →
    without_types inputs = some (argNames inputs)
  | [], _ => rfl
  | a :: rest, h => by
    obtain ⟨n, t, hnt⟩ := h a (by simp)
    subst hnt
    unfold without_types
    rw [without_types_simple rest (fun x hx => h x (by simp [hx]))]
    simp [argNames, List.filterMap_cons]

/-- On plainly-named argument lists, every argument becomes a named field,
with the binding names as field names, index-aligned. -/
theorem mapOption_fieldOfArg_simple : ∀ (inputs : List FnArg),
    (∀ a ∈ inputs, ∃ n t, a = FnArg.typed (Pat.ident n) t) →
    ∃ fl, mapOption fieldOfArg inputs = some fl ∧
      fieldNames fl = argNames inputs ∧
      (∀ f ∈ fl, ∃ n, f.name = FieldName.named n) ∧
      fl.length = inputs.length
  | [], _ => ⟨[], rfl, rfl, by simp, rfl⟩
  | a :: rest, h => by
    obtain ⟨n, t, hnt⟩ := h a (by simp)
    subst hnt
    obtain ⟨fl, hfl, hnames, hnamed, hlen⟩ :=
      mapOption_fieldOfArg_simple rest (fun x hx => h x (by simp [hx]))
    refine ⟨{ name := FieldName.named n, ty := t } :: fl, ?_, ?_, ?_, ?_⟩
    · unfold mapOption
      rw [hfl]
      rfl
    · have h1 : fieldNames ({ name := FieldName.named n, ty := t } :: fl) =
          n :: fieldNames fl := by
        simp [fieldNames, List.filterMap_cons]
      have h2 : argNames (FnArg.typed (Pat.ident n) t :: rest) = n :: argNames rest := by
        simp [argNames, List.filterMap_cons]
      rw [h1, h2, hnames]
    · intro f hf
      rcases List.mem_cons.mp hf with hf | hf
      · exact ⟨n, by rw [hf]⟩
      · exact hnamed f hf
    · simp [hlen]

/-- On plainly-named argument lists, the binding names are as many as the
arguments. -/
theorem argNames_length_simple : ∀ (inputs : List FnArg),
    (∀ a ∈ inputs, ∃ n t, a = FnArg.typed (Pat.ident n) t) →
    (argNames inputs).length = inputs.length
  | [], _ => rfl
  | a :: rest, h => by
    obtain ⟨n, t, hnt⟩ := h a (by simp)
    subst hnt
    have ih := argNames_length_simple rest (fun x hx => h x (by simp [hx]))
    have hcons : argNames (FnArg.typed (Pat.ident n) t :: rest) = n :: argNames rest := by
      simp [argNames, List.filterMap_cons]
    rw [hcons, List.length_cons, List.length_cons, ih]

/-- A function with plainly-named arguments has no receiver in first
position. -/
theorem recvFlag_simple (sig : Signature)
    (hs : ∀ a ∈ sig.inputs, ∃ n t, a = FnArg.typed (Pat.ident n) t) :
    recvFlag sig = false := by
  unfold recvFlag
  cases hin : sig.inputs with
  | nil => rfl
  | cons a tl =>
    obtain ⟨n, t, hnt⟩ := hs a (by rw [hin]; simp)
    subst hnt
    rfl

/-- The variant built by `convert_single` always carries the PascalCase
function name. -/
theorem convert_single_vname (sig : Signature) (v : Variant)
    (h : convert_single sig = some v) : v.vname = toPascal sig.ident := by
  obtain ⟨sc, sa, su, sid, ins, sout⟩ := sig
  cases ins with
  | nil =>
    have h2 : some { vname := toPascal sid, fields := (none : Option (List Field)) } =
        some v := h
    simp only [Option.some.injEq] at h2
    rw [← h2]
  | cons a tl =>
    cases a with
    | receiver =>
      have h2 : (mapOption fieldOfArg tl).map
          (fun fs => { vname := toPascal sid, fields := some fs }) = some v := h
      cases hm : mapOption fieldOfArg tl with
      | none => rw [hm] at h2; simp at h2
      | some fl =>
        rw [hm] at h2
        simp only [Option.map_some', Option.some.injEq] at h2
        rw [← h2]
    | typed p t =>
      have h2 : (mapOption fieldOfArg (FnArg.typed p t :: tl)).map
          (fun fs => { vname := toPascal sid, fields := some fs }) = some v := h
      cases hm : mapOption fieldOfArg (FnArg.typed p t :: tl) with
      | none => rw [hm] at h2; simp at h2
      | some fl =>
        rw [hm] at h2
        simp only [Option.map_some', Option.some.injEq] at h2
        rw [← h2]

/-- On a function with plainly-named arguments, `convert_single` succeeds
and its braced field list (empty when the function has no inputs) is the
per-argument field list. -/
theorem convert_single_simple (sig : Signature)
    (hs : ∀ a ∈ sig.inputs, ∃ n t, a = FnArg.typed (Pat.ident n) t) :
    ∃ v fl, convert_single sig = some v ∧ v.vname = toPascal sig.ident ∧
      v.fields.getD [] = fl ∧ mapOption fieldOfArg sig.inputs = some fl := by
  obtain ⟨sc, sa, su, sid, ins, sout⟩ := sig
  obtain ⟨fl, hfl, -⟩ := mapOption_fieldOfArg_simple ins hs
  cases ins with
  | nil =>
    simp only [mapOption, Option.some.injEq] at hfl
    subst hfl
    exact ⟨{ vname := toPascal sid, fields := none }, [], rfl, rfl, rfl, rfl⟩
  | cons a tl =>
    obtain ⟨n, t, hnt⟩ := hs a (by simp)
    subst hnt
    refine ⟨{ vname := toPascal sid, fields := some fl }, fl, ?_, rfl, rfl, hfl⟩
    show (mapOption fieldOfArg (FnArg.typed (Pat.ident n) t :: tl)).map
        (fun fs => ({ vname := toPascal sid, fields := some fs } : Variant)) =
      some { vname := toPascal sid, fields := some fl }
    rw [hfl]
    rfl

/-! Claim theorems. -/

/-- Claim C10: for every input implementation block, `Functions::try_from`
never returns through the `Err` channel of its `Result` type — it always
returns `Ok`, and every extraction failure is surfaced through the
diagnostic sink (emitted or aborting diagnostics) instead. -/
theorem c10_err_channel_unused (input : ItemImpl) :
    isErrReturn (tryFrom input) = false := by
  unfold tryFrom
  cases h : extractLoop input.items ExtractState.init with
  | ok st => rfl
  | abort e d => rfl
  | panic e => rfl

/-- Claim C5, evaluated at the failing input: for `f(x: i32, _: bool)` the
code's `convert_single` interpolates the wildcard argument as a named
field too, yielding a variant with two fields — not the single field `x`
the claim (and the spec's field-correspondence invariant) requires. -/
theorem c5_wildcard_contributes_field :
    convert_single wildcardSig = some
      { vname := "F"
        fields := some [{ name := FieldName.named ("x"), ty := "i32" },
                        { name := FieldName.wildcard, ty := "bool" }] } := by
  rfl

/-- Claim C6, evaluated at the failing input: in the receiver-forbidding
revision (`lib.rs`), a receiver on a function member other than the first
is never checked, and the constructed receiver error of the first-function
check is discarded anyway; on `fn a() -> i32; fn b(self) -> i32` the
transformation completes with an output (enum plus `map`) and an empty
diagnostic list instead of failing fatally. -/
theorem c6_late_receiver_not_fatal :
    (∃ s ∈ fnSigs lateRecvInput.items, FnArg.receiver ∈ s.inputs) ∧
    ∃ o, enum_from_functions lateRecvInput = LibResult.output [] o ∧
      o.map.isSome = true := by
  constructor
  · exact ⟨plainSig ("b") [FnArg.receiver] (ReturnType.ty ("i32")), by decide, by decide⟩
  · exact ⟨_, rfl, rfl⟩

/-- Claim C7, evaluated at the failing input: the two name-blanked
signatures of `fn foo(a: i32) -> i32` and `fn bar(b: i32) -> i32` differ,
yet the transformation completes with an output and an empty diagnostic
list — the constructed mismatched-signatures error's token stream is
discarded by the source, so no diagnostic is ever emitted. -/
theorem c7_mismatch_diag_discarded :
    anonimize mismatchFooSig ≠ anonimize mismatchBarSig ∧
    ∃ o, enum_from_functions mismatchSigInput = LibResult.output [] o ∧
      o.map.isSome = true := by
  exact ⟨by decide, _, rfl, rfl⟩

/-- Counterexample to claim C2 as stated: an `impl` block whose single
function carries both the `async` and the `const` qualifier contains at
least one asynchronous and at least one constant-evaluable function, yet
the extraction does not fail — it returns `Ok` with no diagnostics,
because neither arm of the mutual-exclusion match covers a function that
is itself both. -/
theorem c2_both_qualifiers_not_fatal :
    (∃ s ∈ fnSigs bothQualInput.items, s.asyncness = true) ∧
    (∃ s ∈ fnSigs bothQualInput.items, s.constness = true) ∧
    ∃ fs, tryFrom bothQualInput = TryFromResult.returns (Except.ok fs) [] := by
  refine ⟨by decide, by decide, ⟨_, rfl⟩⟩

/-- Counterexample to claim C9 as stated: on `async fn f` followed by
`const async fn g` the extraction completes successfully with BOTH
aggregated flags set — the invariant fails because a doubly-qualified
member escapes both abort arms and then sets both flags. -/
theorem c9_both_flags_reachable :
    ∃ fs, tryFrom asyncThenBothInput = TryFromResult.returns (Except.ok fs) [] ∧
      fs.asyncness.isSome = true ∧ fs.constness.isSome = true := by
  exact ⟨_, rfl, rfl, rfl⟩

/-- Claim C2 (amended): an implementation block whose function members
include at least one asynchronous and at least one constant-evaluable
function — where no single member carries both qualifiers, and every
member's argument patterns are supported — fails fatally with the
async/const mutual-exclusion abort, producing no Function Set, hence no
union type and no dispatch operation. -/
theorem c2_mutual_exclusion_amended (input : ItemImpl)
    (hnb : ∀ s ∈ fnSigs input.items, ¬(s.asyncness = true ∧ s.constness = true))
    (hasync : ∃ s ∈ fnSigs input.items, s.asyncness = true)
    (hconst : ∃ s ∈ fnSigs input.items, s.constness = true)
    (hcall : ∀ s ∈ fnSigs input.items, (callOf s).isSome = true) :
    ∃ e i, tryFrom input =
      TryFromResult.fatalAbort e (Diag.asyncConstMix (Span.constTok i)) := by
  unfold tryFrom
  rw [extractLoop_eq_sigsLoop]
  cases h : sigsLoop (fnSigs input.items) ExtractState.init with
  | ok st1 =>
    exfalso
    have hnb2 := sigsLoop_ok_notBoth _ _ _ h hnb (by simp [ExtractState.init])
    have ha := (sigsLoop_ok_async _ _ _ h).mpr (Or.inr hasync)
    have hc := (sigsLoop_ok_const _ _ _ h).mpr (Or.inr hconst)
    exact hnb2 ⟨ha, hc⟩
  | abort e d =>
    obtain ⟨i, hd⟩ := sigsLoop_abort_shape _ _ _ _ h
    subst hd
    exact ⟨e, i, rfl⟩
  | panic e =>
    exfalso
    exact sigsLoop_no_panic _ _ _ hcall h

/-- Witness for the amended claim C2 at `async fn f` followed by
`const fn g`. -/
theorem c2_mutual_exclusion_witness :
    ∃ e i, tryFrom asyncThenConstInput =
      TryFromResult.fatalAbort e (Diag.asyncConstMix (Span.constTok i)) :=
  c2_mutual_exclusion_amended asyncThenConstInput (by decide) (by decide)
    (by decide) (by decide)

/-- Claim C9 (amended): for every Function Set the extractor successfully
produces from members none of which carries both qualifiers at once, the
aggregated asynchronous and constant-evaluable flags are never both
set. -/
theorem c9_flags_mutually_exclusive_amended (input : ItemImpl) (fs : Functions)
    (ds : List Diag)
    (h : tryFrom input = TryFromResult.returns (Except.ok fs) ds)
    (hnb : ∀ s ∈ fnSigs input.items, ¬(s.asyncness = true ∧ s.constness = true)) :
    ¬(fs.asyncness.isSome = true ∧ fs.constness.isSome = true) := by
  obtain ⟨st1, hloop, -, -, ha, hc, -⟩ := tryFrom_ok_loop input fs ds h
  rw [ha, hc]
  exact sigsLoop_ok_notBoth _ _ _ hloop hnb (by simp [ExtractState.init])

/-- Witness for the amended claim C9 at two plain `async` functions. -/
theorem c9_flags_witness :
    ¬(twoAsyncFns.asyncness.isSome = true ∧ twoAsyncFns.constness.isSome = true) :=
  c9_flags_mutually_exclusive_amended twoAsyncInput twoAsyncFns [] rfl (by decide)

/-- Claim C3: the generated dispatch operation's signature takes the union
value by consuming ownership as its sole required parameter (spec-modelled
part, the emitter being absent from the sources), carries the
asynchronous/constant-evaluable/unsafe qualifiers from the Function Set's
aggregated flags — each set exactly when some member carries the
qualifier — and has the Function Set's unified, first-seen return type
(both proved against `extract.rs`). -/
theorem c3_map_signature (input : ItemImpl) (fs : Functions) (ds : List Diag)
    (h : tryFrom input = TryFromResult.returns (Except.ok fs) ds) :
    (mapSignature fs).selfByValue = true ∧
    (mapSignature fs).extraParams = [] ∧
    ((mapSignature fs).asyncness = true ↔ ∃ s ∈ fnSigs input.items, s.asyncness = true) ∧
    ((mapSignature fs).constness = true ↔ ∃ s ∈ fnSigs input.items, s.constness = true) ∧
    ((mapSignature fs).unsafety = true ↔ ∃ s ∈ fnSigs input.items, s.unsafety = true) ∧
    (mapSignature fs).output = (match fnSigs input.items with
      | [] => ReturnType.default
      | s :: _ => s.output) := by
  obtain ⟨-, -, ha, hc, hu, hrt⟩ := tryFrom_ok_spec input fs ds h
  exact ⟨rfl, rfl, ha, hc, hu, hrt⟩

/-- Witness for claim C3 at one `unsafe` and one `async` function. -/
theorem c3_map_signature_witness :
    (mapSignature unsafeAsyncFns).selfByValue = true ∧
    (mapSignature unsafeAsyncFns).extraParams = [] ∧
    ((mapSignature unsafeAsyncFns).asyncness = true ↔
      ∃ s ∈ fnSigs unsafeAsyncInput.items, s.asyncness = true) ∧
    ((mapSignature unsafeAsyncFns).constness = true ↔
      ∃ s ∈ fnSigs unsafeAsyncInput.items, s.constness = true) ∧
    ((mapSignature unsafeAsyncFns).unsafety = true ↔
      ∃ s ∈ fnSigs unsafeAsyncInput.items, s.unsafety = true) ∧
    (mapSignature unsafeAsyncFns).output = (match fnSigs unsafeAsyncInput.items with
      | [] => ReturnType.default
      | s :: _ => s.output) :=
  c3_map_signature unsafeAsyncInput unsafeAsyncFns [] rfl

/-- Claim C4: a Function Set containing an asynchronous member yields a
dispatch operation marked asynchronous (the signature assembly is
spec-modelled, the aggregation proved against `extract.rs`), and the
forwarding call of every asynchronous member is wrapped in the `.await`
suspension wrapper (proved against `extract.rs`). -/
theorem c4_async_propagation (input : ItemImpl) (fs : Functions) (ds : List Diag)
    (k : Nat) (h : tryFrom input = TryFromResult.returns (Except.ok fs) ds)
    (hk : k < fs.signatures.length)
    (hasync : (fs.signatures.get ⟨k, hk⟩).asyncness = true) :
    (mapSignature fs).asyncness = true ∧
    ∃ hk2 : k < fs.calls.length, ∃ args,
      without_types (fs.signatures.get ⟨k, hk⟩).inputs = some args ∧
      fs.calls.get ⟨k, hk2⟩ =
        Expr.await (Expr.call (fs.signatures.get ⟨k, hk⟩).ident
          (recvFlag (fs.signatures.get ⟨k, hk⟩)) args) := by
  obtain ⟨hsig, hcalls, ha, -⟩ := tryFrom_ok_spec input fs ds h
  rw [← hsig] at hcalls
  obtain ⟨hlen, hget⟩ := mapOption_length_get callOf fs.signatures fs.calls hcalls
  have hk2 : k < fs.calls.length := by rw [hlen]; exact hk
  constructor
  · show fs.asyncness.isSome = true
    rw [ha, ← hsig]
    exact ⟨fs.signatures.get ⟨k, hk⟩, List.get_mem _ _ hk, hasync⟩
  · refine ⟨hk2, ?_⟩
    have hco := hget k hk hk2
    unfold callOf at hco
    cases hw : without_types (fs.signatures.get ⟨k, hk⟩).inputs with
    | none => rw [hw] at hco; simp at hco
    | some args =>
      rw [hw] at hco
      simp only [Option.map_some', Option.some.injEq] at hco
      rw [hasync] at hco
      simp only [if_true] at hco
      exact ⟨args, rfl, hco.symm⟩

/-- Witness for claim C4 at a single `async fn f(x: i32) -> i32`. -/
theorem c4_async_witness :
    (mapSignature oneAsyncFns).asyncness = true ∧
    ∃ hk2 : 0 < oneAsyncFns.calls.length, ∃ args,
      without_types (oneAsyncFns.signatures.get ⟨0, by decide⟩).inputs = some args ∧
      oneAsyncFns.calls.get ⟨0, hk2⟩ =
        Expr.await (Expr.call (oneAsyncFns.signatures.get ⟨0, by decide⟩).ident
          (recvFlag (oneAsyncFns.signatures.get ⟨0, by decide⟩)) args) :=
  c4_async_propagation oneAsyncInput oneAsyncFns [] 0 rfl (by decide) (by decide)

/-- Claim C8: when two function members declare different return types (so
some later member differs from the first), two non-fatal diagnostics are
emitted — one at the unifying (first-seen) return type's span citing the
offending type and one at the offending member's return-type span citing
the unifying type — extraction continues, and the transformation completes
with the first-seen return type as the unified one.  (The block is assumed
free of the two independent fatal conditions: no const member and no
unsupported argument pattern.) -/
theorem c8_return_type_mismatch (input : ItemImpl) (s0 : Signature)
    (rest : List Signature) (k : Nat)
    (hsigs : fnSigs input.items = s0 :: rest)
    (hk : k < rest.length)
    (hne : (rest.get ⟨k, hk⟩).output ≠ s0.output)
    (hnoconst : ∀ s ∈ fnSigs input.items, s.constness = false)
    (hcall : ∀ s ∈ fnSigs input.items, (callOf s).isSome = true) :
    ∃ fs ds, tryFrom input = TryFromResult.returns (Except.ok fs) ds ∧
      fs.return_type = s0.output ∧
      Diag.retMismatch (Span.output 0) ((rest.get ⟨k, hk⟩).output) ∈ ds ∧
      Diag.retMismatch (Span.output (1 + k)) s0.output ∈ ds := by
  rw [hsigs] at hnoconst hcall
  obtain ⟨st1, hloop⟩ :=
    sigsLoop_noConst_ok (s0 :: rest) ExtractState.init hnoconst hcall rfl
  obtain ⟨st2, hstep, hrest⟩ := sigsLoop_ok_cons s0 rest ExtractState.init st1 hloop
  obtain ⟨-, -, -, -, -, -, hfr2, -, hcnt2⟩ := extractStep_ok_fields _ _ _ hstep
  have hfr2s : st2.firstRet = some (0, s0.output) := by rw [hfr2]; rfl
  have hcnt2s : st2.fnCount = 1 := by rw [hcnt2]; rfl
  have hmem := sigsLoop_ok_mismatch_mem rest k st2 st1 0 s0.output hk hrest hfr2s hne
  rw [hcnt2s] at hmem
  have hfr1 : st1.firstRet = some (0, s0.output) :=
    sigsLoop_ok_firstRet rest st2 st1 _ hrest hfr2s
  unfold tryFrom
  rw [extractLoop_eq_sigsLoop, hsigs, hloop]
  refine ⟨_, st1.diags, rfl, ?_, hmem.1, hmem.2⟩
  simp [hfr1]

/-- Witness for claim C8 at `fn foo() -> &str` and `fn bar() -> String`. -/
theorem c8_return_type_mismatch_witness :
    ∃ fs ds, tryFrom retMismatchInput = TryFromResult.returns (Except.ok fs) ds ∧
      fs.return_type = ReturnType.ty ("&str") ∧
      Diag.retMismatch (Span.output 0) (ReturnType.ty ("String")) ∈ ds ∧
      Diag.retMismatch (Span.output (1 + 0)) (ReturnType.ty ("&str")) ∈ ds :=
  c8_return_type_mismatch retMismatchInput
    (plainSig ("foo") [] (ReturnType.ty ("&str")))
    [plainSig ("bar") [] (ReturnType.ty ("String"))] 0 rfl (by decide) (by decide)
    (by decide) (by decide)

/-- Claim C1, round-trip dispatch: for a member function whose arguments
are all plainly named, pairwise distinct and receiver-free, and whose
PascalCase variant name is not already taken by an earlier member,
invoking the dispatch operation on a union value constructed as that
member's variant with field values `a1..an` yields the same result as
invoking the function on `a1..an` directly.  The variants are the ones
`generate.rs` builds and the forwarding calls the ones `extract.rs`
builds; the match-arm assembly (`dispatch`) is modelled from the spec, the
emitter being absent from the sources. -/
theorem c1_round_trip {V : Type} (I : String → List V → V) (input : ItemImpl)
    (fs : Functions) (ds : List Diag) (i : Nat) (vals : List V)
    (h : tryFrom input = TryFromResult.returns (Except.ok fs) ds)
    (hi : i < fs.signatures.length)
    (hsimple : ∀ a ∈ (fs.signatures.get ⟨i, hi⟩).inputs,
      ∃ n t, a = FnArg.typed (Pat.ident n) t)
    (hnd : (argNames (fs.signatures.get ⟨i, hi⟩).inputs).Nodup)
    (hlen : vals.length = (argNames (fs.signatures.get ⟨i, hi⟩).inputs).length)
    (hconv : ∀ s ∈ fs.signatures, (convert_single s).isSome = true)
    (hfirst : ∀ j (hj : j < i),
      toPascal (fs.signatures.get ⟨j, Nat.lt_trans hj hi⟩).ident ≠
        toPascal (fs.signatures.get ⟨i, hi⟩).ident) :
    dispatch I fs
      { variantName := toPascal (fs.signatures.get ⟨i, hi⟩).ident
        fieldVals := vals } =
      some (I (fs.signatures.get ⟨i, hi⟩).ident vals) := by
  obtain ⟨hsig, hcalls, -⟩ := tryFrom_ok_spec input fs ds h
  rw [← hsig] at hcalls
  obtain ⟨vars, hvars⟩ := mapOption_isSome_of_all convert_single fs.signatures hconv
  obtain ⟨hvlen, hvget⟩ := mapOption_length_get convert_single fs.signatures vars hvars
  obtain ⟨hclen, hcget⟩ := mapOption_length_get callOf fs.signatures fs.calls hcalls
  have hiv : i < vars.length := by rw [hvlen]; exact hi
  have hic : i < fs.calls.length := by rw [hclen]; exact hi
  have hvo : variantsOf fs = some vars := hvars
  have hfind := find_zip_first
      (fun v => v.vname == toPascal (fs.signatures.get ⟨i, hi⟩).ident)
      vars fs.calls i hiv hic
      (by
        intro j hj
        have hjs : j < fs.signatures.length := Nat.lt_trans hj hi
        have hjv : j < vars.length := Nat.lt_trans hj hiv
        have hvn := convert_single_vname (fs.signatures.get ⟨j, hjs⟩)
          (vars.get ⟨j, hjv⟩) (hvget j hjs hjv)
        simp only
        rw [hvn]
        exact beq_eq_false_iff_ne.mpr (hfirst j hj))
      (by
        have hvn := convert_single_vname (fs.signatures.get ⟨i, hi⟩)
          (vars.get ⟨i, hiv⟩) (hvget i hi hiv)
        simp only
        rw [hvn]
        simp)
  simp only [dispatch, hvo]
  rw [hfind]
  show evalExpr I (bindFields ((vars.get ⟨i, hiv⟩).fields.getD []) vals)
      (fs.calls.get ⟨i, hic⟩) = some (I (fs.signatures.get ⟨i, hi⟩).ident vals)
  obtain ⟨v, fl, hcs, -, hgetD, hmapf⟩ :=
    convert_single_simple (fs.signatures.get ⟨i, hi⟩) hsimple
  have hveq : v = vars.get ⟨i, hiv⟩ := by
    have := hvget i hi hiv
    rw [hcs] at this
    exact Option.some.inj this
  obtain ⟨fl2, hmapf2, hnames2, hnamed2, hlen2⟩ :=
    mapOption_fieldOfArg_simple (fs.signatures.get ⟨i, hi⟩).inputs hsimple
  have hfl2 : fl = fl2 := by
    rw [hmapf] at hmapf2
    exact Option.some.inj hmapf2
  subst hfl2
  have hco := hcget i hi hic
  unfold callOf at hco
  rw [without_types_simple _ hsimple] at hco
  simp only [Option.map_some', Option.some.injEq] at hco
  rw [recvFlag_simple _ hsimple] at hco
  have hargs : evalArgs (bindFields fl vals) (argNames (fs.signatures.get ⟨i, hi⟩).inputs)
      = some vals := by
    rw [← hnames2]
    refine evalArgs_bindFields fl vals hnamed2 (by rw [hnames2]; exact hnd) ?_
    rw [hlen, ← hnames2]
    have : (fieldNames fl).length = fl.length := by
      rw [hnames2]
      rw [argNames_length_simple _ hsimple, hlen2]
    rw [this]
  rw [← hveq, hgetD, ← hco]
  cases hasync : (fs.signatures.get ⟨i, hi⟩).asyncness with
  | false =>
    simp [evalExpr]
    exact ⟨vals, hargs, rfl⟩
  | true =>
    simp [evalExpr]
    exact ⟨vals, hargs, rfl⟩

/-- Witness for claim C1 at the spec's concrete scenario (`foo() -> &str`
returning `"Foo"`, `bar(baz: i32) -> &str` returning `"Bar"`): dispatching
a value constructed as `Bar` with field value `5` yields what `bar`
yields. -/
theorem c1_round_trip_witness :
    dispatch fooBarInterp fooBarFns
      { variantName := "Bar", fieldVals := [("5")] } = some ("Bar") := by
  have h := c1_round_trip fooBarInterp fooBarInput fooBarFns [] 1 [("5")] rfl
    (of_decide_eq_true rfl)
    (by
      intro a ha
      simp [fooBarFns, fooBarInput, fnSigs, plainSig] at ha
      subst ha
      exact ⟨("baz"), ("i32"), rfl⟩)
    (by decide) (by decide) (by decide)
    (by
      intro j hj
      have hj0 : j = 0 := by omega
      subst hj0
      show toPascal (fooBarFns.signatures.get ⟨0, of_decide_eq_true rfl⟩).ident ≠
        toPascal (fooBarFns.signatures.get ⟨1, of_decide_eq_true rfl⟩).ident
      decide)
  exact h

end EnumFromFunctions
